import Mathlib

/-!
Verification development for the `sfl` sequence-face-landmarks library.

The repository source under `src/sequence_face_landmarks/sfl/` declares the
public contract (`Face`, `Frame`, `SequenceFaceLandmarks` with `addFrame`,
`getSequence`, `clear`, `clone`, `load`, `save`, configuration accessors,
`size`, and the `create` factories).  The concrete implementation of that
contract is not part of the sources, so the operational behaviour below is
modelled from the specification, component by component, and the claims are
settled against that model.
-/

namespace SFL

/-- A 2D integer point, the shallow embedding of `cv::Point` used by
`Face::landmarks` in `src/sequence_face_landmarks/sfl/sequence_face_landmarks.h`
(line 20); `cv::Point` has integer coordinates. -/
structure Pt where
  x : Int
  y : Int
deriving DecidableEq

/-- An axis-aligned integer rectangle, the shallow embedding of `cv::Rect`
used by `Face::bbox` (header line 19); `cv::Rect` has integer fields
`x, y, width, height`. -/
structure Rect where
  x : Int
  y : Int
  w : Int
  h : Int
deriving DecidableEq

/-- A face detected in a frame (header lines 16-22): id, bounding box and
landmark points. -/
structure Face where
  id : Int
  bbox : Rect
  landmarks : List Pt
deriving DecidableEq

/-- A frame that might include faces (header lines 26-32): id, width, height
and the detected faces, an ordered owned collection. -/
structure Frame where
  id : Int
  width : Int
  height : Int
  faces : List Face
deriving DecidableEq

/-- Modelled from the spec: a raw detection as returned by the black-box
detection adapter `detect(frame) -> list of (bbox, landmarks)` (spec section 1
and section 6); the adapter implementation is not part of this repository's
sources. -/
structure Det where
  bbox : Rect
  landmarks : List Pt
deriving DecidableEq

/-- Modelled from the spec: an image is abstracted to its pixel dimensions;
pixel content only matters through the black-box detection adapter, which the
model takes as an arbitrary function on images. -/
structure Image where
  width : Nat
  height : Nat
deriving DecidableEq

/-- Width of the intersection of two rectangles (may be negative when they are
horizontally disjoint). -/
def interW (a b : Rect) : Int :=
  min (a.x + a.w) (b.x + b.w) - max a.x b.x

/-- Height of the intersection of two rectangles. -/
def interH (a b : Rect) : Int :=
  min (a.y + a.h) (b.y + b.h) - max a.y b.y

/-- Area of the intersection of two rectangles, clipped at zero. -/
def interArea (a b : Rect) : Int :=
  max 0 (interW a b) * max 0 (interH a b)

/-- Area of the union of two rectangles. -/
def unionArea (a b : Rect) : Int :=
  a.w * a.h + b.w * b.h - interArea a b

/-- Modelled from the spec (glossary): intersection-over-union of two bounding
boxes, area of intersection divided by area of union; degenerate unions give
affinity 0. -/
def iou (a b : Rect) : Rat :=
  if unionArea a b ≤ 0 then 0 else (interArea a b : Rat) / (unionArea a b : Rat)

/-- Modelled from the spec (section 4.1): the fixed IoU threshold, design
default 0.3. -/
def iouThreshold : Rat := 3 / 10

/-- A candidate match considered by the greedy tracker: index `pi` and id
`pid` of the previous face, index `j` of the current raw detection, and their
IoU affinity `v`. -/
structure Cand where
  pi : Nat
  pid : Int
  j : Nat
  v : Rat
deriving DecidableEq

/-- Pair every list element with its index, starting from `k`. -/
def idxFrom (k : Nat) : List α → List (Nat × α)
  | [] => []
  | a :: as => (k, a) :: idxFrom (k + 1) as

/-- Modelled from the spec (section 4.1 step 1): all (previous face, current
detection) pairs whose IoU affinity exceeds the threshold. -/
def cands (prev : List (Nat × Face)) (dets : List (Nat × Det)) : List Cand :=
  prev.flatMap fun p => dets.filterMap fun d =>
    if iouThreshold < iou p.2.bbox d.2.bbox then
      some ⟨p.1, p.2.id, d.1, iou p.2.bbox d.2.bbox⟩
    else none

/-- Candidate preference: strictly higher IoU, or equal IoU and strictly lower
previous-face id (the spec's deterministic tie-break, section 4.1). -/
def betterB (c b : Cand) : Bool :=
  decide (b.v < c.v ∨ (c.v = b.v ∧ c.pid < b.pid))

/-- Pick the preferred candidate from a list; on full ties the earliest
candidate (lowest previous index, then lowest detection index, the generation
order of `cands`) is kept. -/
def chooseBest : List Cand → Option Cand
  | [] => none
  | c :: cs =>
    match chooseBest cs with
    | none => some c
    | some b => if betterB c b then some c else some b

/-- Modelled from the spec (section 4.1 step 2): greedy best-match.
Repeatedly pick the highest-affinity candidate pair above the threshold,
commit it, remove both the previous face and the detection from further
consideration, and repeat.  The fuel argument bounds the recursion; one
previous face is consumed per step, so `prev.length` fuel suffices. -/
def greedyGo : Nat → List (Nat × Face) → List (Nat × Det) → List Cand
  | 0, _, _ => []
  | fuel + 1, prev, dets =>
    match chooseBest (cands prev dets) with
    | none => []
    | some c =>
        c :: greedyGo fuel (prev.filter fun p => p.1 != c.pi)
          (dets.filter fun d => d.1 != c.j)

/-- Modelled from the spec (section 4.1): the list of committed matches for one
frame, in the order the greedy loop commits them. -/
def greedyMatches (prev : List Face) (dets : List Det) : List Cand :=
  greedyGo prev.length (idxFrom 0 prev) (idxFrom 0 dets)

/-- Id inherited by detection `j`, when the greedy matching matched it. -/
def lookupMatch (ms : List Cand) (j : Nat) : Option Int :=
  match ms.find? fun m => m.j == j with
  | some m => some m.pid
  | none => none

/-- Modelled from the spec (section 4.1 steps 2-3): build the current face
list in detection order; a matched detection inherits the previous face's id,
an unmatched detection receives a freshly allocated id from the counter. -/
def assignFaces (ms : List Cand) : Nat → Nat → List Det → List Face × Nat
  | _, n, [] => ([], n)
  | j, n, d :: ds =>
    match lookupMatch ms j with
    | some i =>
        let r := assignFaces ms (j + 1) n ds
        (⟨i, d.bbox, d.landmarks⟩ :: r.1, r.2)
    | none =>
        let r := assignFaces ms (j + 1) (n + 1) ds
        (⟨(n : Int), d.bbox, d.landmarks⟩ :: r.1, r.2)

/-- Modelled from the spec (section 4.1): with tracking disabled every raw
detection becomes a new face with a freshly allocated id from the
monotonically increasing counter. -/
def freshFaces : Nat → List Det → List Face
  | _, [] => []
  | n, d :: ds => ⟨(n : Int), d.bbox, d.landmarks⟩ :: freshFaces (n + 1) ds

/-- Modelled from the spec (section 4.1): the Face Tracker.  Given the
previous frame's faces, the current detections and the id counter, produce the
current face list and the advanced counter. -/
def track (enabled : Bool) (prev : List Face) (dets : List Det) (nextId : Nat) :
    List Face × Nat :=
  if enabled then assignFaces (greedyMatches prev dets) 0 nextId dets
  else (freshFaces nextId dets, nextId + dets.length)

/-- Error taxonomy modelled from the spec (section 7). -/
inductive Err where
  | invalidInput
  | invalidConfiguration
  | ioFailure
deriving DecidableEq

/-- Modelled from the spec (sections 3 and 4.2): the Sequence Controller state
implementing the `SequenceFaceLandmarks` contract of the header: configuration
(model path, frame scale, track-faces flag), the ordered frame store, and the
tracker state (previous-face set, face-id counter) plus the frame-id
counter. -/
structure Controller where
  modelPath : String
  frameScale : Rat
  trackFaces : Bool
  sequence : List Frame
  prevFaces : List Face
  nextFaceId : Nat
  nextFrameId : Nat
deriving DecidableEq

/-- The `create` factory of the header (lines 104-113): a fresh controller
with the given configuration and empty state. -/
def mkController (modelPath : String) (frameScale : Rat) (trackFaces : Bool) :
    Controller :=
  ⟨modelPath, frameScale, trackFaces, [], [], 0, 0⟩

/-- The `getSequence` accessor (header lines 48-51). -/
def getSequence (c : Controller) : List Frame := c.sequence

/-- The `size` accessor (header lines 95-97): number of committed frames. -/
def size (c : Controller) : Nat := c.sequence.length

/-- The `getModel` accessor (header lines 62-64). -/
def getModel (c : Controller) : String := c.modelPath

/-- The `getFrameScale` accessor (header lines 66-68). -/
def getFrameScale (c : Controller) : Rat := c.frameScale

/-- The `getTrackFaces` accessor (header lines 70-72). -/
def getTrackFaces (c : Controller) : Bool := c.trackFaces

/-- The `setModel` mutator (header lines 86-88). -/
def setModel (c : Controller) (m : String) : Controller :=
  { c with modelPath := m }

/-- The `setTrackFaces` mutator (header lines 90-93). -/
def setTrackFaces (c : Controller) (t : Bool) : Controller :=
  { c with trackFaces := t }

/-- Modelled from the spec (section 4.2 failure conditions): `setFrameScale`
(header lines 82-84) rejects a non-positive scale as an input-validation
failure, leaving the configured scale unchanged. -/
def setFrameScale (c : Controller) (s : Rat) : Except Err Controller :=
  if s ≤ 0 then .error .invalidConfiguration else .ok { c with frameScale := s }

/-- Modelled from the spec (section 4.2): `clear` (header lines 53-55) empties
the frame store and resets the tracker's previous faces and the id counters;
configuration is untouched. -/
def clear (c : Controller) : Controller :=
  { c with sequence := [], prevFaces := [], nextFaceId := 0, nextFrameId := 0 }

/-- Modelled from the spec (sections 3 and 4.2): `clone` (header lines 57-60)
produces a full copy of the controller value; the detection model resource is
shared but immutable, so it does not appear in the state. -/
def clone (c : Controller) : Controller := c

/-- Floor of a rational, as the rounding policy for coordinate rescaling. -/
def ratFloor (q : Rat) : Int := q.floor

/-- Modelled from the spec (section 4.2): internal scaling of the incoming
frame by the configured frame scale before detection. -/
def scaleImage (s : Rat) (img : Image) : Image :=
  ⟨(ratFloor ((img.width : Rat) * s)).toNat, (ratFloor ((img.height : Rat) * s)).toNat⟩

/-- Clamp an integer into the closed interval `[lo, hi]`. -/
def clampI (lo hi v : Int) : Int := max lo (min hi v)

/-- Modelled from the spec (section 4.2): a coordinate returned by detection on
the internally scaled image is mapped back to original pixel coordinates by
dividing by the scale, rounded down to an integer. -/
def rescaleCoord (s : Rat) (v : Int) : Int := ratFloor ((v : Rat) / s)

/-- Modelled from the spec (sections 3 and 4.2): rescale a bounding box back to
original coordinates and clamp it inside the original image bounds
(width `W`, height `H`), as done at detection time. -/
def rescaleRect (s : Rat) (W H : Int) (r : Rect) : Rect :=
  let x := clampI 0 (W - 1) (rescaleCoord s r.x)
  let y := clampI 0 (H - 1) (rescaleCoord s r.y)
  ⟨x, y, max 0 (min (rescaleCoord s r.w) (W - x)),
    max 0 (min (rescaleCoord s r.h) (H - y))⟩

/-- Modelled from the spec (sections 3 and 4.2): rescale a landmark point back
to original coordinates and clamp it inside the original image bounds. -/
def rescalePt (s : Rat) (W H : Int) (p : Pt) : Pt :=
  ⟨clampI 0 (W - 1) (rescaleCoord s p.x), clampI 0 (H - 1) (rescaleCoord s p.y)⟩

/-- Rescale and clamp one raw detection back to original image coordinates. -/
def normDet (s : Rat) (W H : Int) (d : Det) : Det :=
  ⟨rescaleRect s W H d.bbox, d.landmarks.map (rescalePt s W H)⟩

/-- Modelled from the spec (section 4.2): `addFrame` (header lines 42-46).
Rejects an empty image; otherwise takes the frame id from the caller when
non-negative and from the internal counter otherwise, scales the image, runs
the black-box detection adapter `detect` on the scaled image, rescales the
detections back to original coordinates, runs the Face Tracker against the
previous frame's faces, and appends the committed frame to the store. -/
def addFrame (detect : Image → List Det) (c : Controller) (img : Image)
    (id : Int := -1) : Except Err (Controller × Frame) :=
  if img.width = 0 ∨ img.height = 0 then .error .invalidInput
  else
    let frameId : Int := if id < 0 then (c.nextFrameId : Int) else id
    let nextFrameId' := if id < 0 then c.nextFrameId + 1 else c.nextFrameId
    let raw := detect (scaleImage c.frameScale img)
    let dets := raw.map (normDet c.frameScale (img.width : Int) (img.height : Int))
    let r := track c.trackFaces c.prevFaces dets c.nextFaceId
    let fr : Frame := ⟨frameId, (img.width : Int), (img.height : Int), r.1⟩
    .ok ({ c with
            sequence := c.sequence ++ [fr]
            prevFaces := r.1
            nextFaceId := r.2
            nextFrameId := nextFrameId' }, fr)

/-- Encoding of a landmark point in the persistence format (spec section 6):
its two coordinates. -/
def encPt (p : Pt) : List Int := [p.x, p.y]

/-- Encoding of a face record (spec section 6): id, the four bbox numbers, the
landmark count, then the landmark coordinates. -/
def encFace (f : Face) : List Int :=
  [f.id, f.bbox.x, f.bbox.y, f.bbox.w, f.bbox.h, (f.landmarks.length : Int)]
    ++ f.landmarks.flatMap encPt

/-- Encoding of a frame record (spec section 6): id, width, height, the face
count, then the face records. -/
def encFrame (fr : Frame) : List Int :=
  [fr.id, fr.width, fr.height, (fr.faces.length : Int)] ++ fr.faces.flatMap encFace

/-- Modelled from the spec (sections 4.3 and 6): the Persistence codec,
serializing the ordered frame list to a flat sequence of numbers (the
self-describing file content); the format does not embed the detector
configuration. -/
def encodeSeq (seq : List Frame) : List Int :=
  (seq.length : Int) :: seq.flatMap encFrame

/-- Decode `n` landmark points, returning them and the unconsumed input. -/
def decPts : Nat → List Int → Option (List Pt × List Int)
  | 0, rest => some ([], rest)
  | n + 1, x :: y :: rest => do
      let r ← decPts n rest
      some (⟨x, y⟩ :: r.1, r.2)
  | _ + 1, _ => none

/-- Decode one face record. -/
def decFace : List Int → Option (Face × List Int)
  | i :: x :: y :: w :: h :: n :: rest =>
      if n < 0 then none
      else do
        let r ← decPts n.toNat rest
        some (⟨i, ⟨x, y, w, h⟩, r.1⟩, r.2)
  | _ => none

/-- Decode `n` face records. -/
def decFaces : Nat → List Int → Option (List Face × List Int)
  | 0, rest => some ([], rest)
  | n + 1, l => do
      let r ← decFace l
      let r' ← decFaces n r.2
      some (r.1 :: r'.1, r'.2)

/-- Decode one frame record. -/
def decFrame : List Int → Option (Frame × List Int)
  | i :: w :: h :: n :: rest =>
      if n < 0 then none
      else do
        let r ← decFaces n.toNat rest
        some (⟨i, w, h, r.1⟩, r.2)
  | _ => none

/-- Decode `n` frame records. -/
def decFrames : Nat → List Int → Option (List Frame × List Int)
  | 0, rest => some ([], rest)
  | n + 1, l => do
      let r ← decFrame l
      let r' ← decFrames n r.2
      some (r.1 :: r'.1, r'.2)

/-- Modelled from the spec (sections 4.3 and 6): decode a whole file; malformed
content (bad counts, truncation, trailing garbage) is rejected. -/
def decodeSeq (l : List Int) : Option (List Frame) :=
  match l with
  | [] => none
  | n :: rest =>
      if n < 0 then none
      else
        match decFrames n.toNat rest with
        | some (seq, []) => some seq
        | _ => none

/-- Modelled from the spec (section 4.2): `save` (header lines 78-80) writes
the encoded current sequence as the file content. -/
def save (c : Controller) : List Int := encodeSeq c.sequence

/-- Modelled from the spec (section 4.2): `load` (header lines 74-76) replaces
the current sequence content entirely with the decoded file (equivalent to
`clear` then populate) and does not alter configuration; a malformed file
fails without mutating existing state. -/
def load (c : Controller) (file : List Int) : Except Err Controller :=
  match decodeSeq file with
  | none => .error .ioFailure
  | some seq =>
      .ok { c with
              sequence := seq
              prevFaces := []
              nextFaceId := 0
              nextFrameId := 0 }

/-- Modelled from the spec (section 4.2): run a sequence of `addFrame` calls
with the internal frame-id counter (explicit id `-1`); a rejected frame leaves
the controller unchanged. -/
def runFrames (detect : Image → List Det) : Controller → List Image → Controller
  | c, [] => c
  | c, img :: imgs =>
    match addFrame detect c img (-1) with
    | .ok r => runFrames detect r.1 imgs
    | .error _ => runFrames detect c imgs

/-- The list of `k` consecutive ids starting at `s`, as integers. -/
def idsFrom : Nat → Nat → List Int
  | _, 0 => []
  | s, k + 1 => (s : Int) :: idsFrom (s + 1) k

/-- All face ids of a frame list, in frame order then face order. -/
def faceIds (frs : List Frame) : List Int :=
  frs.flatMap fun fr => fr.faces.map Face.id

/-- Total number of raw detections produced by the adapter over a run of
frames at a given configured scale. -/
def totalDets (detect : Image → List Det) (s : Rat) (imgs : List Image) : Nat :=
  (imgs.map fun img => (detect (scaleImage s img)).length).sum

/-- A world of independently owned controller instances, addressed by handle;
this models aliasing-sensitive statements about `clone` in the shallow
embedding. -/
def cloneAt (w : List Controller) (h : Nat) : List Controller :=
  match w[h]? with
  | some c => w ++ [clone c]
  | none => w

/-- Run `addFrame` on the controller at handle `h`; other handles are
untouched. -/
def addFrameAt (detect : Image → List Det) (w : List Controller) (h : Nat)
    (img : Image) (i : Int) : List Controller :=
  match w[h]? with
  | some c =>
    match addFrame detect c img i with
    | .ok r => w.set h r.1
    | .error _ => w
  | none => w

/-- Run `clear` on the controller at handle `h`. -/
def clearAt (w : List Controller) (h : Nat) : List Controller :=
  match w[h]? with
  | some c => w.set h (clear c)
  | none => w

/-! ### Persistence codec round-trip -/

theorem decPts_enc (ps : List Pt) (rest : List Int) :
    decPts ps.length (ps.flatMap encPt ++ rest) = some (ps, rest) := by
  induction ps with
  | nil => simp [decPts]
  | cons p ps ih =>
      simp only [List.flatMap_cons, List.cons_append, encPt, List.length_cons]
      simp [decPts, ih]

theorem decFace_enc (f : Face) (rest : List Int) :
    decFace (encFace f ++ rest) = some (f, rest) := by
  have h : ¬ ((f.landmarks.length : Int) < 0) := by omega
  simp [encFace, decFace, h, Int.toNat_natCast, decPts_enc]

theorem decFaces_enc (fs : List Face) (rest : List Int) :
    decFaces fs.length (fs.flatMap encFace ++ rest) = some (fs, rest) := by
  induction fs generalizing rest with
  | nil => simp [decFaces]
  | cons f fs ih => simp [decFaces, decFace_enc, ih]

theorem decFrame_enc (fr : Frame) (rest : List Int) :
    decFrame (encFrame fr ++ rest) = some (fr, rest) := by
  have h : ¬ ((fr.faces.length : Int) < 0) := by omega
  simp [encFrame, decFrame, h, Int.toNat_natCast, decFaces_enc]

theorem decFrames_enc (frs : List Frame) (rest : List Int) :
    decFrames frs.length (frs.flatMap encFrame ++ rest) = some (frs, rest) := by
  induction frs generalizing rest with
  | nil => simp [decFrames]
  | cons fr frs ih => simp [decFrames, decFrame_enc, ih]

theorem decodeSeq_encodeSeq (seq : List Frame) :
    decodeSeq (encodeSeq seq) = some seq := by
  have h : ¬ ((seq.length : Int) < 0) := by omega
  have h2 := decFrames_enc seq []
  simp only [List.append_nil] at h2
  simp [encodeSeq, decodeSeq, h, Int.toNat_natCast, h2]

/-- C3: save followed by load into a fresh controller yields a sequence
identical to the original — same frame ids, widths, heights, face ids, bbox
values, landmark lists, and the same ordering of frames and faces (full
structural equality of the frame list). -/
theorem C3_save_load_roundtrip (c : Controller) (m : String) (s : Rat) (t : Bool) :
    load (mkController m s t) (save c) =
      .ok { mkController m s t with sequence := getSequence c } := by
  simp [load, save, decodeSeq_encodeSeq, getSequence, mkController]

/-- C5: an empty image is rejected by `addFrame` with no frame committed, a
non-positive scale is rejected by `setFrameScale` leaving the configured scale
unchanged, and `load` of a malformed file fails; in this functional model an
error result carries no new controller state, so the caller's sequence,
tracker state and counters are untouched on every failure. -/
theorem C5_failure_conditions (detect : Image → List Det) (c : Controller)
    (img : Image) (s : Rat) (file : List Int) (i : Int) :
    (img.width = 0 ∨ img.height = 0 → addFrame detect c img i = .error .invalidInput) ∧
    (s ≤ 0 → setFrameScale c s = .error .invalidConfiguration) ∧
    (decodeSeq file = none → load c file = .error .ioFailure) := by
  refine ⟨fun h => ?_, fun h => ?_, fun h => ?_⟩
  · simp [addFrame, h]
  · simp [setFrameScale, h]
  · simp [load, h]

/-- Witness for C5 at concrete inputs: a 0-wide image, scale 0, and a file
whose leading count is negative. -/
theorem C5_failure_conditions_witness :
    addFrame (fun _ => []) (mkController "" 1 false) ⟨0, 5⟩ (-1) = .error .invalidInput ∧
    setFrameScale (mkController "" 1 false) 0 = .error .invalidConfiguration ∧
    load (mkController "" 1 false) [(-1)] = .error .ioFailure := by
  obtain ⟨h1, h2, h3⟩ :=
    C5_failure_conditions (fun _ => []) (mkController "" 1 false) ⟨0, 5⟩ 0 [(-1)] (-1)
  exact ⟨h1 (Or.inl rfl), h2 le_rfl, h3 (by decide)⟩

/-- C6: `clear` empties the frame store, resets the tracker's previous faces
and both id counters, keeps the configuration, and makes the controller
behave exactly like a freshly created one with the same configuration, so the
next `addFrame` issues ids as if no prior frames existed. -/
theorem C6_clear_resets (c : Controller) :
    size (clear c) = 0 ∧ getSequence (clear c) = [] ∧
    (clear c).prevFaces = [] ∧ (clear c).nextFaceId = 0 ∧
    (clear c).nextFrameId = 0 ∧
    getModel (clear c) = getModel c ∧
    getFrameScale (clear c) = getFrameScale c ∧
    getTrackFaces (clear c) = getTrackFaces c ∧
    clear c = mkController (getModel c) (getFrameScale c) (getTrackFaces c) ∧
    ∀ detect img i,
      addFrame detect (clear c) img i =
        addFrame detect (mkController (getModel c) (getFrameScale c) (getTrackFaces c)) img i := by
  exact ⟨rfl, rfl, rfl, rfl, rfl, rfl, rfl, rfl, rfl, fun _ _ _ => rfl⟩

/-- C8: the committed frame's id comes from the internal counter exactly when
the caller-supplied id is negative (advancing the counter as a side effect),
and a non-negative caller id is used as given with no validation — any prior
state, including duplicate or non-monotonic ids already in the sequence, is
accepted. -/
theorem C8_frame_id_policy (detect : Image → List Det) (c : Controller)
    (img : Image) (i : Int) (hw : img.width ≠ 0) (hh : img.height ≠ 0) :
    ∃ c' fr, addFrame detect c img i = .ok (c', fr) ∧
      fr.id = (if i < 0 then (c.nextFrameId : Int) else i) ∧
      c'.nextFrameId = (if i < 0 then c.nextFrameId + 1 else c.nextFrameId) ∧
      getSequence c' = getSequence c ++ [fr] := by
  have h : ¬ (img.width = 0 ∨ img.height = 0) := by tauto
  unfold addFrame
  rw [if_neg h]
  exact ⟨_, _, rfl, rfl, rfl, rfl⟩

/-- Witness for C8: a duplicate explicit id 7 on a controller that already
holds a frame with id 7 is accepted as given, and the internal counter is used
for a negative id. -/
theorem C8_frame_id_policy_witness :
    (∃ c' fr, addFrame (fun _ => [])
        { mkController "" 1 false with sequence := [⟨7, 2, 2, []⟩] } ⟨2, 2⟩ 7 = .ok (c', fr) ∧
      fr.id = (if (7 : Int) < 0 then ((mkController "" 1 false).nextFrameId : Int) else 7) ∧
      c'.nextFrameId = (if (7 : Int) < 0 then (mkController "" 1 false).nextFrameId + 1
        else (mkController "" 1 false).nextFrameId) ∧
      getSequence c' =
        getSequence { mkController "" 1 false with sequence := [⟨7, 2, 2, []⟩] } ++ [fr]) := by
  exact C8_frame_id_policy (fun _ => [])
    { mkController "" 1 false with sequence := [⟨7, 2, 2, []⟩] } ⟨2, 2⟩ 7
    (by decide) (by decide)

/-- C10: every coordinate exposed at the interface is integer-valued (the
`Face` bbox and landmarks are built from integer `Rect` and `Pt`), so the
divide-by-scale rescaling rounds every coordinate down to an integer — the
reported value is the floor of the exact quotient, within 1 below it — and for
some scale and coordinate the exact rational quotient cannot be returned: the
committed face's coordinate differs from it. -/
theorem C10_integer_coordinates :
    (∀ (s : Rat) (v : Int),
        ((rescaleCoord s v : Int) : Rat) ≤ (v : Rat) / s ∧
        (v : Rat) / s - 1 < ((rescaleCoord s v : Int) : Rat)) ∧
    (∃ (s : Rat) (v : Int), s ≠ 1 ∧ 0 < s ∧
        ((rescaleCoord s v : Int) : Rat) ≠ (v : Rat) / s) ∧
    (∃ c' fr f, addFrame (fun _ => [⟨⟨3, 0, 1, 1⟩, []⟩]) (mkController "" 2 false)
        ⟨4, 4⟩ 0 = .ok (c', fr) ∧ fr.faces = [f] ∧
        ((f.bbox.x : Rat) ≠ (3 : Rat) / 2)) := by
  refine ⟨fun s v => ⟨Int.floor_le ((v : Rat) / s), Int.sub_one_lt_floor ((v : Rat) / s)⟩,
    ⟨2, 3, by norm_num, by norm_num, ?_⟩,
    ⟨_, _, ⟨0, ⟨1, 0, 0, 0⟩, []⟩, by with_unfolding_all rfl,
      by with_unfolding_all rfl, by norm_num⟩⟩
  rw [show rescaleCoord 2 3 = 1 from by with_unfolding_all rfl]
  norm_num

/-- Counterexample for C9: a successful `load` — an operation that is neither
`addFrame` nor `clear` — changes the number of committed frames, here from 1
to 0, so the frame count does not reset to 0 only via `clear`. -/
theorem C9_counterexample :
    size { mkController "" 1 false with sequence := [(⟨0, 4, 4, []⟩ : Frame)] } = 1 ∧
    (load { mkController "" 1 false with sequence := [(⟨0, 4, 4, []⟩ : Frame)] }
        (encodeSeq [])).toOption.map size = some 0 := by
  exact ⟨rfl, rfl⟩

/-- C9 (amended): the sequence is append-only under `addFrame` (exactly one
frame per successful call, order preserved), `clear` resets it to empty, and
`load` replaces it with the decoded file contents; no other operation —
`setModel`, `setTrackFaces`, a successful `setFrameScale`, `clone` — changes
the number or order of committed frames. -/
theorem C9_sequence_invariants (detect : Image → List Det) (c c' : Controller)
    (img : Image) (i : Int) (fr : Frame) (s : Rat) (m : String) (t : Bool)
    (file : List Int) :
    (addFrame detect c img i = .ok (c', fr) →
      getSequence c' = getSequence c ++ [fr] ∧ size c' = size c + 1) ∧
    (getSequence (clear c) = [] ∧ size (clear c) = 0) ∧
    (load c file = .ok c' → decodeSeq file = some (getSequence c')) ∧
    getSequence (setModel c m) = getSequence c ∧
    getSequence (setTrackFaces c t) = getSequence c ∧
    (setFrameScale c s = .ok c' → getSequence c' = getSequence c) ∧
    getSequence (clone c) = getSequence c := by
  refine ⟨fun h => ?_, ⟨rfl, rfl⟩, fun h => ?_, rfl, rfl, fun h => ?_, rfl⟩
  · unfold addFrame at h
    split at h
    · cases h
    · simp only [Except.ok.injEq, Prod.mk.injEq] at h
      obtain ⟨hc, hf⟩ := h
      subst hc; subst hf
      simp [getSequence, size]
  · unfold load at h
    split at h
    · cases h
    · next seq heq =>
        simp only [Except.ok.injEq] at h
        subst h
        simpa [getSequence] using heq
  · unfold setFrameScale at h
    split at h
    · cases h
    · simp only [Except.ok.injEq] at h
      subst h
      rfl

/-- Witness for the amended C9 at a concrete input: one successful `addFrame`
appends exactly one frame. -/
theorem C9_sequence_invariants_witness :
    getSequence { mkController "" 1 false with sequence := [(⟨0, 1, 1, []⟩ : Frame)] } =
      getSequence (mkController "" 1 false) ++ [(⟨0, 1, 1, []⟩ : Frame)] ∧
    size { mkController "" 1 false with sequence := [(⟨0, 1, 1, []⟩ : Frame)] } =
      size (mkController "" 1 false) + 1 := by
  exact (C9_sequence_invariants (fun _ => []) (mkController "" 1 false)
    { mkController "" 1 false with sequence := [(⟨0, 1, 1, []⟩ : Frame)] } ⟨1, 1⟩ 0
    ⟨0, 1, 1, []⟩ 1 "" false []).1 rfl

/-- C7: controllers are independent instances — running `addFrame` or `clear`
on the controller at one handle leaves every other handle's controller value
(hence its `size` and `getSequence` contents) unchanged, and a fresh clone is
a full copy of its source sharing no mutable state in the model. -/
theorem C7_clone_independence (detect : Image → List Det) (w : List Controller)
    (h h' : Nat) (img : Image) (i : Int) (c : Controller)
    (hne : h ≠ h') (hlt : h' < w.length) (hc : w[h]? = some c) :
    (addFrameAt detect w h img i)[h']? = w[h']? ∧
    (clearAt w h)[h']? = w[h']? ∧
    (cloneAt w h)[h']? = w[h']? ∧
    (cloneAt w h)[w.length]? = some (clone c) ∧
    clone c = c := by
  refine ⟨?_, ?_, ?_, ?_, rfl⟩
  · unfold addFrameAt
    rw [hc]
    show (match addFrame detect c img i with
      | Except.ok r => w.set h r.1
      | Except.error _ => w)[h']? = w[h']?
    cases addFrame detect c img i with
    | ok r => exact List.getElem?_set_ne hne
    | error e => rfl
  · unfold clearAt
    rw [hc]
    show (w.set h (clear c))[h']? = w[h']?
    exact List.getElem?_set_ne hne
  · unfold cloneAt
    rw [hc]
    show (w ++ [clone c])[h']? = w[h']?
    exact List.getElem?_append_left hlt
  · unfold cloneAt
    rw [hc]
    show (w ++ [clone c])[w.length]? = some (clone c)
    exact List.getElem?_concat_length w (clone c)

/-- Witness for C7 at a concrete two-controller world. -/
theorem C7_clone_independence_witness :
    (addFrameAt (fun _ => []) [mkController "a" 1 false, mkController "b" 2 true]
        0 ⟨1, 1⟩ (-1))[1]? = [mkController "a" 1 false, mkController "b" 2 true][1]? ∧
    (clearAt [mkController "a" 1 false, mkController "b" 2 true] 0)[1]? =
      [mkController "a" 1 false, mkController "b" 2 true][1]? ∧
    (cloneAt [mkController "a" 1 false, mkController "b" 2 true] 0)[1]? =
      [mkController "a" 1 false, mkController "b" 2 true][1]? ∧
    (cloneAt [mkController "a" 1 false, mkController "b" 2 true] 0)[
      [mkController "a" 1 false, mkController "b" 2 true].length]? =
      some (clone (mkController "a" 1 false)) ∧
    clone (mkController "a" 1 false) = mkController "a" 1 false := by
  exact C7_clone_independence (fun _ => []) _ 0 1 ⟨1, 1⟩ (-1) (mkController "a" 1 false)
    (by decide) (by decide) rfl

/-! ### Untracked id allocation -/

theorem freshFaces_ids (ds : List Det) : ∀ n, (freshFaces n ds).map Face.id = idsFrom n ds.length := by
  induction ds with
  | nil => intro n; rfl
  | cons d ds ih => intro n; simp [freshFaces, idsFrom, ih]

theorem idsFrom_append (a : Nat) : ∀ s b, idsFrom s (a + b) = idsFrom s a ++ idsFrom (s + a) b := by
  induction a with
  | zero => intro s b; simp [idsFrom]
  | succ a ih =>
      intro s b
      rw [Nat.succ_add]
      simp only [idsFrom, List.cons_append, ih (s + 1) b]
      rw [show s + 1 + a = s + (a + 1) from by omega]

theorem addFrame_untracked (detect : Image → List Det) (c : Controller) (img : Image)
    (hw : img.width ≠ 0) (hh : img.height ≠ 0) (ht : c.trackFaces = false) :
    ∃ fr c', addFrame detect c img (-1) = .ok (c', fr) ∧
      c'.sequence = c.sequence ++ [fr] ∧
      fr.faces.map Face.id = idsFrom c.nextFaceId (detect (scaleImage c.frameScale img)).length ∧
      c'.nextFaceId = c.nextFaceId + (detect (scaleImage c.frameScale img)).length ∧
      c'.trackFaces = false ∧ c'.frameScale = c.frameScale := by
  have h : ¬ (img.width = 0 ∨ img.height = 0) := by tauto
  unfold addFrame
  rw [if_neg h, ht]
  refine ⟨_, _, rfl, rfl, ?_, ?_, rfl, rfl⟩
  · show ((track false c.prevFaces _ c.nextFaceId).1).map Face.id = _
    rw [show track false c.prevFaces
        ((detect (scaleImage c.frameScale img)).map
          (normDet c.frameScale (img.width : Int) (img.height : Int))) c.nextFaceId =
        (freshFaces c.nextFaceId _, c.nextFaceId + _) from rfl]
    rw [freshFaces_ids]
    rw [List.length_map]
  · show (track false c.prevFaces _ c.nextFaceId).2 = _
    rw [show (track false c.prevFaces
        ((detect (scaleImage c.frameScale img)).map
          (normDet c.frameScale (img.width : Int) (img.height : Int))) c.nextFaceId).2 =
        c.nextFaceId + ((detect (scaleImage c.frameScale img)).map
          (normDet c.frameScale (img.width : Int) (img.height : Int))).length from rfl]
    rw [List.length_map]

theorem runFrames_untracked (detect : Image → List Det) (imgs : List Image) :
    ∀ c : Controller, c.trackFaces = false →
    (∀ img ∈ imgs, img.width ≠ 0 ∧ img.height ≠ 0) →
    ∃ new, (runFrames detect c imgs).sequence = c.sequence ++ new ∧
      faceIds new = idsFrom c.nextFaceId (totalDets detect c.frameScale imgs) ∧
      (runFrames detect c imgs).nextFaceId =
        c.nextFaceId + totalDets detect c.frameScale imgs := by
  induction imgs with
  | nil =>
      intro c _ _
      exact ⟨[], by simp [runFrames], by simp [faceIds, totalDets, idsFrom],
        by simp [runFrames, totalDets]⟩
  | cons img imgs ih =>
      intro c ht hne
      obtain ⟨hw, hh⟩ := hne img (List.mem_cons_self img imgs)
      obtain ⟨fr, c₁, hok, hseq, hids, hnext, ht₁, hs₁⟩ :=
        addFrame_untracked detect c img hw hh ht
      have hrun : runFrames detect c (img :: imgs) = runFrames detect c₁ imgs := by
        simp only [runFrames, hok]
      obtain ⟨new', h1, h2, h3⟩ :=
        ih c₁ ht₁ (fun x hx => hne x (List.mem_cons_of_mem img hx))
      refine ⟨fr :: new', ?_, ?_, ?_⟩
      · rw [hrun, h1, hseq]
        simp
      · have htot : totalDets detect c.frameScale (img :: imgs) =
            (detect (scaleImage c.frameScale img)).length +
              totalDets detect c.frameScale imgs := by
          simp [totalDets]
        rw [hnext, hs₁] at h2
        rw [htot, idsFrom_append]
        simp only [faceIds, List.flatMap_cons] at h2 ⊢
        rw [hids, h2]
      · rw [hrun, h3, hnext, hs₁]
        have : totalDets detect c.frameScale (img :: imgs) =
            (detect (scaleImage c.frameScale img)).length +
              totalDets detect c.frameScale imgs := by
          simp [totalDets]
        omega

/-- C2: with tracking disabled, across a run of `addFrame` calls every raw
detection becomes a new face whose id comes from the monotonically increasing
counter: the ids collected over the newly committed frames, in first-seen
order, are exactly the `k` consecutive integers starting at the counter (so
exactly `0, ..., k-1` from a fresh controller), with no reuse even across
frames with zero detections, and the counter advances by exactly `k`. -/
theorem C2_untracked_fresh_ids (detect : Image → List Det) (c : Controller)
    (imgs : List Image) (ht : getTrackFaces c = false)
    (hne : ∀ img ∈ imgs, img.width ≠ 0 ∧ img.height ≠ 0) :
    ∃ new, getSequence (runFrames detect c imgs) = getSequence c ++ new ∧
      faceIds new = idsFrom c.nextFaceId (totalDets detect (getFrameScale c) imgs) ∧
      (runFrames detect c imgs).nextFaceId =
        c.nextFaceId + totalDets detect (getFrameScale c) imgs ∧
      (c.nextFaceId = 0 →
        faceIds new = idsFrom 0 (totalDets detect (getFrameScale c) imgs)) := by
  obtain ⟨new, h1, h2, h3⟩ := runFrames_untracked detect imgs c ht hne
  refine ⟨new, h1, h2, h3, fun h0 => ?_⟩
  show faceIds new = idsFrom 0 (totalDets detect c.frameScale imgs)
  rw [h2, h0]

/-- Witness for C2: two frames, one detection each, from a fresh controller:
the assigned ids are exactly 0 and 1. -/
theorem C2_untracked_fresh_ids_witness :
    ∃ new, getSequence (runFrames (fun _ => [⟨⟨0, 0, 2, 2⟩, []⟩])
        (mkController "" 1 false) [⟨4, 4⟩, ⟨4, 4⟩]) =
      getSequence (mkController "" 1 false) ++ new ∧
      faceIds new = idsFrom (mkController "" 1 false).nextFaceId
        (totalDets (fun _ => [⟨⟨0, 0, 2, 2⟩, []⟩])
          (getFrameScale (mkController "" 1 false)) [⟨4, 4⟩, ⟨4, 4⟩]) ∧
      (runFrames (fun _ => [⟨⟨0, 0, 2, 2⟩, []⟩])
          (mkController "" 1 false) [⟨4, 4⟩, ⟨4, 4⟩]).nextFaceId =
        (mkController "" 1 false).nextFaceId +
          totalDets (fun _ => [⟨⟨0, 0, 2, 2⟩, []⟩])
            (getFrameScale (mkController "" 1 false)) [⟨4, 4⟩, ⟨4, 4⟩] ∧
      ((mkController "" 1 false).nextFaceId = 0 →
        faceIds new = idsFrom 0 (totalDets (fun _ => [⟨⟨0, 0, 2, 2⟩, []⟩])
          (getFrameScale (mkController "" 1 false)) [⟨4, 4⟩, ⟨4, 4⟩])) := by
  exact C2_untracked_fresh_ids (fun _ => [⟨⟨0, 0, 2, 2⟩, []⟩]) (mkController "" 1 false)
    [⟨4, 4⟩, ⟨4, 4⟩] rfl (by decide)

/-! ### Coordinate rescaling -/

theorem assignFaces_get (ms : List Cand) (ds : List Det) :
    ∀ (j n k : Nat) (d : Det), ds[k]? = some d →
      ∃ f, ((assignFaces ms j n ds).1)[k]? = some f ∧
        f.bbox = d.bbox ∧ f.landmarks = d.landmarks := by
  induction ds with
  | nil => intro j n k d h; simp at h
  | cons d0 ds ih =>
      intro j n k d h
      cases k with
      | zero =>
          rw [List.getElem?_cons_zero, Option.some.injEq] at h
          subst h
          unfold assignFaces
          cases lookupMatch ms j with
          | some i => exact ⟨_, List.getElem?_cons_zero, rfl, rfl⟩
          | none => exact ⟨_, List.getElem?_cons_zero, rfl, rfl⟩
      | succ k =>
          rw [List.getElem?_cons_succ] at h
          unfold assignFaces
          cases lookupMatch ms j with
          | some i =>
              obtain ⟨f, hf, hb, hl⟩ := ih (j + 1) n k d h
              exact ⟨f, by rw [List.getElem?_cons_succ]; exact hf, hb, hl⟩
          | none =>
              obtain ⟨f, hf, hb, hl⟩ := ih (j + 1) (n + 1) k d h
              exact ⟨f, by rw [List.getElem?_cons_succ]; exact hf, hb, hl⟩

theorem freshFaces_get (ds : List Det) :
    ∀ (n k : Nat) (d : Det), ds[k]? = some d →
      ∃ f, (freshFaces n ds)[k]? = some f ∧ f.bbox = d.bbox ∧ f.landmarks = d.landmarks := by
  induction ds with
  | nil => intro n k d h; simp at h
  | cons d0 ds ih =>
      intro n k d h
      cases k with
      | zero =>
          rw [List.getElem?_cons_zero, Option.some.injEq] at h
          subst h
          exact ⟨_, List.getElem?_cons_zero, rfl, rfl⟩
      | succ k =>
          rw [List.getElem?_cons_succ] at h
          obtain ⟨f, hf, hb, hl⟩ := ih (n + 1) k d h
          refine ⟨f, ?_, hb, hl⟩
          unfold freshFaces
          rw [List.getElem?_cons_succ]
          exact hf

theorem track_get (e : Bool) (prev : List Face) (dets : List Det) (n : Nat)
    (k : Nat) (d : Det) (h : dets[k]? = some d) :
    ∃ f, ((track e prev dets n).1)[k]? = some f ∧
      f.bbox = d.bbox ∧ f.landmarks = d.landmarks := by
  unfold track
  cases e with
  | true => exact assignFaces_get (greedyMatches prev dets) dets 0 n k d h
  | false => exact freshFaces_get dets n k d h

theorem assignFaces_length (ms : List Cand) (ds : List Det) :
    ∀ j n, ((assignFaces ms j n ds).1).length = ds.length := by
  induction ds with
  | nil => intro j n; rfl
  | cons d0 ds ih =>
      intro j n
      unfold assignFaces
      cases lookupMatch ms j with
      | some i => simp [ih]
      | none => simp [ih]

theorem freshFaces_length (ds : List Det) : ∀ n, (freshFaces n ds).length = ds.length := by
  induction ds with
  | nil => intro n; rfl
  | cons d0 ds ih => intro n; simp [freshFaces, ih]

theorem track_length (e : Bool) (prev : List Face) (dets : List Det) (n : Nat) :
    ((track e prev dets n).1).length = dets.length := by
  unfold track
  cases e with
  | true => exact assignFaces_length (greedyMatches prev dets) dets 0 n
  | false => exact freshFaces_length dets n

theorem clampI_mem (lo hi v : Int) (h : lo ≤ hi) :
    lo ≤ clampI lo hi v ∧ clampI lo hi v ≤ hi := by
  unfold clampI
  omega

theorem rescaleRect_inbounds (s : Rat) (W H : Int) (hW : 1 ≤ W) (hH : 1 ≤ H) (r : Rect) :
    0 ≤ (rescaleRect s W H r).x ∧ 0 ≤ (rescaleRect s W H r).y ∧
    0 ≤ (rescaleRect s W H r).w ∧ 0 ≤ (rescaleRect s W H r).h ∧
    (rescaleRect s W H r).x + (rescaleRect s W H r).w ≤ W ∧
    (rescaleRect s W H r).y + (rescaleRect s W H r).h ≤ H := by
  simp only [rescaleRect, clampI]
  omega

theorem rescalePt_inbounds (s : Rat) (W H : Int) (hW : 1 ≤ W) (hH : 1 ≤ H) (p : Pt) :
    0 ≤ (rescalePt s W H p).x ∧ (rescalePt s W H p).x < W ∧
    0 ≤ (rescalePt s W H p).y ∧ (rescalePt s W H p).y < H := by
  simp only [rescalePt, clampI]
  omega

/-- C4: on a successful `addFrame` with configured scale `s`, each committed
face corresponds positionally to a raw detection returned by the adapter on
the internally scaled image, its bounding box and every landmark are obtained
by dividing the raw coordinates by `s` (rounded down, then clamped), and all
reported coordinates lie within the original image bounds. -/
theorem C4_rescale_to_original (detect : Image → List Det) (c : Controller)
    (img : Image) (i : Int) (c' : Controller) (fr : Frame)
    (_hs : getFrameScale c ≠ 1)
    (hok : addFrame detect c img i = .ok (c', fr)) :
    fr.faces.length = (detect (scaleImage (getFrameScale c) img)).length ∧
    ∀ (k : Nat) (d : Det), (detect (scaleImage (getFrameScale c) img))[k]? = some d →
      ∃ f, fr.faces[k]? = some f ∧
        f.bbox = rescaleRect (getFrameScale c) (img.width : Int) (img.height : Int) d.bbox ∧
        f.bbox.x = clampI 0 ((img.width : Int) - 1)
          (ratFloor ((d.bbox.x : Rat) / getFrameScale c)) ∧
        f.landmarks = d.landmarks.map
          (rescalePt (getFrameScale c) (img.width : Int) (img.height : Int)) ∧
        (0 ≤ f.bbox.x ∧ 0 ≤ f.bbox.y ∧ 0 ≤ f.bbox.w ∧ 0 ≤ f.bbox.h ∧
          f.bbox.x + f.bbox.w ≤ (img.width : Int) ∧
          f.bbox.y + f.bbox.h ≤ (img.height : Int)) ∧
        ∀ p ∈ f.landmarks, 0 ≤ p.x ∧ p.x < (img.width : Int) ∧
          0 ≤ p.y ∧ p.y < (img.height : Int) := by
  have hW : (1 : Int) ≤ (img.width : Int) := by
    by_cases hw : img.width = 0
    · rw [addFrame, if_pos (Or.inl hw)] at hok; cases hok
    · omega
  have hH : (1 : Int) ≤ (img.height : Int) := by
    by_cases hh : img.height = 0
    · rw [addFrame, if_pos (Or.inr hh)] at hok; cases hok
    · omega
  have hne : ¬ (img.width = 0 ∨ img.height = 0) := by omega
  rw [addFrame, if_neg hne] at hok
  simp only [Except.ok.injEq, Prod.mk.injEq] at hok
  obtain ⟨hc', hfr⟩ := hok
  subst hfr
  constructor
  · show ((track _ _ _ _).1).length = _
    rw [track_length, List.length_map]
    rfl
  · intro k d hk
    have hdets : ((detect (scaleImage c.frameScale img)).map
        (normDet c.frameScale (img.width : Int) (img.height : Int)))[k]? =
        some (normDet c.frameScale (img.width : Int) (img.height : Int) d) := by
      rw [List.getElem?_map]
      rw [show (detect (scaleImage c.frameScale img))[k]? = some d from hk]
      rfl
    obtain ⟨f, hf, hb, hl⟩ := track_get c.trackFaces c.prevFaces _ c.nextFaceId k _ hdets
    refine ⟨f, hf, hb, ?_, ?_, ?_, ?_⟩
    · rw [hb]; rfl
    · exact hl
    · rw [hb]
      exact rescaleRect_inbounds c.frameScale (img.width : Int) (img.height : Int) hW hH d.bbox
    · intro p hp
      rw [hl] at hp
      obtain ⟨q, _, hq⟩ := List.mem_map.mp hp
      rw [← hq]
      exact rescalePt_inbounds c.frameScale (img.width : Int) (img.height : Int) hW hH q

/-- Witness for C4: scale 2, a raw detection at (20, 21, 10, 11) with landmark
(5, 6) on a 100x50 image is reported at (10, 10, 5, 5) with landmark (2, 3),
inside the original bounds. -/
theorem C4_rescale_to_original_witness :
    ∃ f, (⟨0, 100, 50, [⟨0, ⟨10, 10, 5, 5⟩, [⟨2, 3⟩]⟩]⟩ : Frame).faces[0]? = some f ∧
      f.bbox = rescaleRect (getFrameScale (mkController "" 2 false))
        ((100 : Nat) : Int) ((50 : Nat) : Int) (⟨20, 21, 10, 11⟩ : Rect) ∧
      f.bbox.x = clampI 0 (((100 : Nat) : Int) - 1)
        (ratFloor (((20 : Int) : Rat) / getFrameScale (mkController "" 2 false))) ∧
      f.landmarks = [(⟨5, 6⟩ : Pt)].map
        (rescalePt (getFrameScale (mkController "" 2 false)) ((100 : Nat) : Int)
          ((50 : Nat) : Int)) ∧
      (0 ≤ f.bbox.x ∧ 0 ≤ f.bbox.y ∧ 0 ≤ f.bbox.w ∧ 0 ≤ f.bbox.h ∧
        f.bbox.x + f.bbox.w ≤ ((100 : Nat) : Int) ∧
        f.bbox.y + f.bbox.h ≤ ((50 : Nat) : Int)) ∧
      ∀ p ∈ f.landmarks, 0 ≤ p.x ∧ p.x < ((100 : Nat) : Int) ∧
        0 ≤ p.y ∧ p.y < ((50 : Nat) : Int) := by
  have h := (C4_rescale_to_original (fun _ => [⟨⟨20, 21, 10, 11⟩, [⟨5, 6⟩]⟩])
    (mkController "" 2 false) ⟨100, 50⟩ 0 _ ⟨0, 100, 50, [⟨0, ⟨10, 10, 5, 5⟩, [⟨2, 3⟩]⟩]⟩
    (by norm_num [getFrameScale, mkController]) (by with_unfolding_all rfl)).2 0
    ⟨⟨20, 21, 10, 11⟩, [⟨5, 6⟩]⟩ rfl
  exact h

/-! ### Greedy best-match tracking -/

theorem mem_cands {prev : List (Nat × Face)} {dets : List (Nat × Det)} {m : Cand} :
    m ∈ cands prev dets ↔ ∃ p ∈ prev, ∃ d ∈ dets,
      iouThreshold < iou p.2.bbox d.2.bbox ∧
      m = ⟨p.1, p.2.id, d.1, iou p.2.bbox d.2.bbox⟩ := by
  constructor
  · intro hm
    obtain ⟨p, hp, hm2⟩ := List.mem_flatMap.mp hm
    obtain ⟨d, hd, hf⟩ := List.mem_filterMap.mp hm2
    split at hf
    · rw [Option.some.injEq] at hf
      subst hf
      exact ⟨p, hp, d, hd, by assumption, rfl⟩
    · simp at hf
  · rintro ⟨p, hp, d, hd, hio, rfl⟩
    refine List.mem_flatMap.mpr ⟨p, hp, List.mem_filterMap.mpr ⟨d, hd, ?_⟩⟩
    rw [if_pos hio]

theorem chooseBest_eq_none {l : List Cand} (h : chooseBest l = none) : l = [] := by
  cases l with
  | nil => rfl
  | cons a l =>
      exfalso
      cases hb : chooseBest l with
      | none => simp [chooseBest, hb] at h
      | some b =>
          simp only [chooseBest, hb] at h
          split at h <;> simp at h

theorem chooseBest_mem : ∀ {l : List Cand} {c : Cand}, chooseBest l = some c → c ∈ l := by
  intro l
  induction l with
  | nil => intro c h; cases h
  | cons a l ih =>
      intro c h
      cases hb : chooseBest l with
      | none =>
          simp only [chooseBest, hb] at h
          obtain rfl : a = c := by simpa using h
          exact List.mem_cons_self a l
      | some b =>
          simp only [chooseBest, hb] at h
          split at h
          · obtain rfl : a = c := by simpa using h
            exact List.mem_cons_self a l
          · obtain rfl : b = c := by simpa using h
            exact List.mem_cons_of_mem a (ih hb)

theorem betterB_iff {c b : Cand} :
    betterB c b = true ↔ (b.v < c.v ∨ (c.v = b.v ∧ c.pid < b.pid)) := by
  simp [betterB]

theorem chooseBest_le : ∀ {l : List Cand} {c : Cand}, chooseBest l = some c →
    ∀ d ∈ l, d.v ≤ c.v ∧ (d.v = c.v → c.pid ≤ d.pid) := by
  intro l
  induction l with
  | nil => intro c h; cases h
  | cons a l ih =>
      intro c h d hd
      cases hb : chooseBest l with
      | none =>
          have hl : l = [] := chooseBest_eq_none hb
          subst hl
          obtain rfl : a = c := by simpa [chooseBest] using h
          obtain rfl : d = a := by simpa using hd
          exact ⟨le_refl _, fun _ => le_refl _⟩
      | some b =>
          simp only [chooseBest, hb] at h
          by_cases hab : betterB a b = true
          · rw [if_pos hab] at h
            obtain rfl : a = c := by simpa using h
            rcases betterB_iff.mp hab with hlt | ⟨heq, hpid⟩
            · rcases List.mem_cons.mp hd with rfl | hdl
              · exact ⟨le_refl _, fun _ => le_refl _⟩
              · obtain ⟨h1, h2⟩ := ih hb d hdl
                exact ⟨le_trans h1 (le_of_lt hlt),
                  fun hdv => absurd hdv (ne_of_lt (lt_of_le_of_lt h1 hlt))⟩
            · rcases List.mem_cons.mp hd with rfl | hdl
              · exact ⟨le_refl _, fun _ => le_refl _⟩
              · obtain ⟨h1, h2⟩ := ih hb d hdl
                refine ⟨le_of_le_of_eq h1 heq.symm, fun hdv => ?_⟩
                have := h2 (hdv.trans heq)
                omega
          · rw [if_neg hab] at h
            obtain rfl : b = c := by simpa using h
            have hnab : ¬ (b.v < a.v ∨ (a.v = b.v ∧ a.pid < b.pid)) := fun hcon =>
              hab (betterB_iff.mpr hcon)
            push_neg at hnab
            obtain ⟨hle, himp⟩ := hnab
            rcases List.mem_cons.mp hd with rfl | hdl
            · exact ⟨hle, himp⟩
            · exact ih hb d hdl

theorem cands_mono {p' : List (Nat × Face)} {d' : List (Nat × Det)}
    {p : List (Nat × Face)} {d : List (Nat × Det)}
    (hp : ∀ x ∈ p', x ∈ p) (hd : ∀ x ∈ d', x ∈ d) {m : Cand}
    (hm : m ∈ cands p' d') : m ∈ cands p d := by
  obtain ⟨a, ha, b, hb, hio, rfl⟩ := mem_cands.mp hm
  exact mem_cands.mpr ⟨a, hp a ha, b, hd b hb, hio, rfl⟩

theorem greedyGo_mem : ∀ (fuel : Nat) (prev : List (Nat × Face)) (dets : List (Nat × Det))
    (m : Cand), m ∈ greedyGo fuel prev dets → m ∈ cands prev dets := by
  intro fuel
  induction fuel with
  | zero => intro prev dets m hm; cases hm
  | succ fuel ih =>
      intro prev dets m hm
      unfold greedyGo at hm
      cases hcb : chooseBest (cands prev dets) with
      | none => rw [hcb] at hm; cases hm
      | some c =>
          rw [hcb] at hm
          rcases List.mem_cons.mp hm with rfl | hm'
          · exact chooseBest_mem hcb
          · exact cands_mono (fun x hx => (List.mem_filter.mp hx).1)
              (fun x hx => (List.mem_filter.mp hx).1) (ih _ _ _ hm')

theorem greedyGo_pi_nodup : ∀ (fuel : Nat) (prev : List (Nat × Face))
    (dets : List (Nat × Det)), ((greedyGo fuel prev dets).map Cand.pi).Nodup := by
  intro fuel
  induction fuel with
  | zero => intro prev dets; simp [greedyGo]
  | succ fuel ih =>
      intro prev dets
      unfold greedyGo
      cases hcb : chooseBest (cands prev dets) with
      | none => simp
      | some c =>
          simp only [List.map_cons, List.nodup_cons]
          refine ⟨?_, ih _ _⟩
          intro hmem
          obtain ⟨m, hm, hpi⟩ := List.mem_map.mp hmem
          obtain ⟨p, hp, b, hb, _, rfl⟩ := mem_cands.mp (greedyGo_mem fuel _ _ m hm)
          have hne := (List.mem_filter.mp hp).2
          simp only [bne_iff_ne, ne_eq] at hne
          exact hne (by simpa using hpi)

theorem greedyGo_j_nodup : ∀ (fuel : Nat) (prev : List (Nat × Face))
    (dets : List (Nat × Det)), ((greedyGo fuel prev dets).map Cand.j).Nodup := by
  intro fuel
  induction fuel with
  | zero => intro prev dets; simp [greedyGo]
  | succ fuel ih =>
      intro prev dets
      unfold greedyGo
      cases hcb : chooseBest (cands prev dets) with
      | none => simp
      | some c =>
          simp only [List.map_cons, List.nodup_cons]
          refine ⟨?_, ih _ _⟩
          intro hmem
          obtain ⟨m, hm, hj⟩ := List.mem_map.mp hmem
          obtain ⟨p, hp, b, hb, _, rfl⟩ := mem_cands.mp (greedyGo_mem fuel _ _ m hm)
          have hne := (List.mem_filter.mp hb).2
          simp only [bne_iff_ne, ne_eq] at hne
          exact hne (by simpa using hj)

theorem greedyGo_chain : ∀ (fuel : Nat) (prev : List (Nat × Face))
    (dets : List (Nat × Det)),
    List.Chain' (fun a b : Cand => b.v ≤ a.v) (greedyGo fuel prev dets) := by
  intro fuel
  induction fuel with
  | zero => intro prev dets; simp [greedyGo]
  | succ fuel ih =>
      intro prev dets
      unfold greedyGo
      cases hcb : chooseBest (cands prev dets) with
      | none => simp
      | some c =>
          refine List.chain'_cons'.mpr ⟨?_, ih _ _⟩
          intro b hb
          have hbc := greedyGo_mem fuel _ _ b (List.mem_of_mem_head? hb)
          exact (chooseBest_le hcb b (cands_mono (fun x hx => (List.mem_filter.mp hx).1)
            (fun x hx => (List.mem_filter.mp hx).1) hbc)).1

theorem greedyGo_complete : ∀ (fuel : Nat) (prev : List (Nat × Face))
    (dets : List (Nat × Det)), prev.length ≤ fuel →
    ∀ p ∈ prev, ∀ d ∈ dets,
      p.1 ∉ (greedyGo fuel prev dets).map Cand.pi →
      d.1 ∉ (greedyGo fuel prev dets).map Cand.j →
      iou p.2.bbox d.2.bbox ≤ iouThreshold := by
  intro fuel
  induction fuel with
  | zero =>
      intro prev dets hlen p hp d hd _ _
      have : prev = [] := List.eq_nil_of_length_eq_zero (Nat.le_zero.mp hlen)
      subst this
      cases hp
  | succ fuel ih =>
      intro prev dets hlen p hp d hd hnp hnd
      by_contra hgt
      push_neg at hgt
      cases hcb : chooseBest (cands prev dets) with
      | none =>
          have hnil := chooseBest_eq_none hcb
          have hmem : (⟨p.1, p.2.id, d.1, iou p.2.bbox d.2.bbox⟩ : Cand) ∈ cands prev dets :=
            mem_cands.mpr ⟨p, hp, d, hd, hgt, rfl⟩
          rw [hnil] at hmem
          cases hmem
      | some c =>
          unfold greedyGo at hnp hnd
          rw [hcb] at hnp hnd
          simp only [List.map_cons, List.mem_cons, not_or] at hnp hnd
          obtain ⟨hnp1, hnp2⟩ := hnp
          obtain ⟨hnd1, hnd2⟩ := hnd
          have hpf : p ∈ prev.filter (fun x => x.1 != c.pi) :=
            List.mem_filter.mpr ⟨hp, by simpa using hnp1⟩
          have hdf : d ∈ dets.filter (fun x => x.1 != c.j) :=
            List.mem_filter.mpr ⟨hd, by simpa using hnd1⟩
          obtain ⟨p₀, hp₀, d₀, hd₀, hio₀, hceq⟩ := mem_cands.mp (chooseBest_mem hcb)
          have hlt : (prev.filter (fun x => x.1 != c.pi)).length < prev.length := by
            refine List.length_filter_lt_length_iff_exists.mpr ⟨p₀, hp₀, ?_⟩
            have hcp : c.pi = p₀.1 := by rw [hceq]
            simp [hcp]
          exact absurd (ih _ _ (by omega) p hpf d hdf hnp2 hnd2) (not_le.mpr hgt)

theorem greedyGo_head {fuel : Nat} {prev : List (Nat × Face)} {dets : List (Nat × Det)}
    {c : Cand} {T : List Cand} (h : greedyGo fuel prev dets = c :: T) :
    chooseBest (cands prev dets) = some c := by
  cases fuel with
  | zero => simp [greedyGo] at h
  | succ fuel =>
      unfold greedyGo at h
      cases hcb : chooseBest (cands prev dets) with
      | none => rw [hcb] at h; simp at h
      | some c' =>
          rw [hcb] at h
          injection h with h1 _
          rw [h1]

theorem idxFrom_length : ∀ (l : List α) (k : Nat), (idxFrom k l).length = l.length := by
  intro l
  induction l with
  | nil => intro k; rfl
  | cons a as ih => intro k; simp [idxFrom, ih]

theorem mem_idxFrom : ∀ (l : List α) (k i : Nat) (b : α),
    (i, b) ∈ idxFrom k l ↔ (k ≤ i ∧ l[i - k]? = some b) := by
  intro l
  induction l with
  | nil => intro k i b; simp [idxFrom]
  | cons a as ih =>
      intro k i b
      simp only [idxFrom, List.mem_cons, Prod.mk.injEq]
      constructor
      · rintro (⟨rfl, rfl⟩ | hq)
        · simp
        · obtain ⟨h1, h2⟩ := (ih (k + 1) i b).mp hq
          refine ⟨by omega, ?_⟩
          obtain ⟨m, hm⟩ : ∃ m, i - k = m + 1 := ⟨i - (k + 1), by omega⟩
          rw [hm, List.getElem?_cons_succ, show m = i - (k + 1) from by omega]
          exact h2
      · rintro ⟨h1, h2⟩
        by_cases hk : i = k
        · subst hk
          rw [Nat.sub_self, List.getElem?_cons_zero, Option.some.injEq] at h2
          exact Or.inl ⟨rfl, h2.symm⟩
        · right
          refine (ih (k + 1) i b).mpr ⟨by omega, ?_⟩
          obtain ⟨m, hm⟩ : ∃ m, i - k = m + 1 := ⟨i - (k + 1), by omega⟩
          rw [hm, List.getElem?_cons_succ] at h2
          rw [show i - (k + 1) = m from by omega]
          exact h2

theorem lookupMatch_of_mem {ms : List Cand} (hnd : (ms.map Cand.j).Nodup) {m : Cand}
    (hm : m ∈ ms) : lookupMatch ms m.j = some m.pid := by
  unfold lookupMatch
  cases hf : ms.find? (fun x => x.j == m.j) with
  | none =>
      have := List.find?_eq_none.mp hf m hm
      simp at this
  | some x =>
      have hx := List.find?_some hf
      have hxm := List.mem_of_find?_eq_some hf
      have hxj : x.j = m.j := by simpa using hx
      have : x = m := List.inj_on_of_nodup_map hnd hxm hm hxj
      rw [this]

theorem assignFaces_matched (ms : List Cand) (ds : List Det) :
    ∀ (j0 n k : Nat) (d : Det) (i : Int), ds[k]? = some d →
      lookupMatch ms (j0 + k) = some i →
      ∃ f, ((assignFaces ms j0 n ds).1)[k]? = some f ∧ f.id = i := by
  induction ds with
  | nil => intro j0 n k d i h _; simp at h
  | cons d0 ds ih =>
      intro j0 n k d i hget hlook
      cases k with
      | zero =>
          rw [show j0 + 0 = j0 from rfl] at hlook
          unfold assignFaces
          rw [hlook]
          exact ⟨_, List.getElem?_cons_zero, rfl⟩
      | succ k =>
          rw [List.getElem?_cons_succ] at hget
          have hlook' : lookupMatch ms ((j0 + 1) + k) = some i := by
            rw [show (j0 + 1) + k = j0 + (k + 1) from by omega]
            exact hlook
          unfold assignFaces
          cases lookupMatch ms j0 with
          | some i' =>
              obtain ⟨f, hf, hfi⟩ := ih (j0 + 1) n k d i hget hlook'
              exact ⟨f, by rw [List.getElem?_cons_succ]; exact hf, hfi⟩
          | none =>
              obtain ⟨f, hf, hfi⟩ := ih (j0 + 1) (n + 1) k d i hget hlook'
              exact ⟨f, by rw [List.getElem?_cons_succ]; exact hf, hfi⟩

theorem assignFaces_nil : ∀ (ds : List Det) (j0 n : Nat),
    assignFaces [] j0 n ds = (freshFaces n ds, n + ds.length) := by
  intro ds
  induction ds with
  | nil => intro j0 n; rfl
  | cons d ds ih =>
      intro j0 n
      unfold assignFaces
      rw [show lookupMatch [] j0 = none from rfl]
      rw [ih (j0 + 1) (n + 1)]
      simp only [Prod.mk.injEq, List.length_cons]
      exact ⟨rfl, by omega⟩

/-- C1: with tracking enabled the tracker performs a deterministic greedy
best-match on IoU.  Every committed match pairs one previous face with one raw
detection at IoU strictly above the 0.3 threshold, the face built for the
matched detection inherits the previous face's id, no previous face or
detection is matched twice, matches are committed in non-increasing affinity
order with the first match attaining the global best affinity and ties broken
by lowest previous-face id, the loop stops exactly when no remaining pair
clears the threshold, and the edge cases hold: no previous faces means all
detections are treated as new, no detections means an empty face list. -/
theorem C1_greedy_tracking (prev : List Face) (dets : List Det) (n : Nat) :
    (∀ m ∈ greedyMatches prev dets,
        iouThreshold < m.v ∧
        ∃ p, prev[m.pi]? = some p ∧ p.id = m.pid ∧
        ∃ d, dets[m.j]? = some d ∧ m.v = iou p.bbox d.bbox ∧
        ∃ f, ((track true prev dets n).1)[m.j]? = some f ∧ f.id = p.id) ∧
    ((greedyMatches prev dets).map Cand.pi).Nodup ∧
    ((greedyMatches prev dets).map Cand.j).Nodup ∧
    List.Chain' (fun a b : Cand => b.v ≤ a.v) (greedyMatches prev dets) ∧
    (∀ c0 T, greedyMatches prev dets = c0 :: T →
      (∀ (pi : Nat) (p : Face), prev[pi]? = some p →
        ∀ (j : Nat) (d : Det), dets[j]? = some d →
          iou p.bbox d.bbox ≤ c0.v) ∧
      (∀ (pi : Nat) (p : Face), prev[pi]? = some p →
        ∀ (j : Nat) (d : Det), dets[j]? = some d →
          iou p.bbox d.bbox = c0.v → c0.pid ≤ p.id)) ∧
    (∀ (pi : Nat) (p : Face), prev[pi]? = some p →
      pi ∉ (greedyMatches prev dets).map Cand.pi →
      ∀ (j : Nat) (d : Det), dets[j]? = some d →
        j ∉ (greedyMatches prev dets).map Cand.j →
        iou p.bbox d.bbox ≤ iouThreshold) ∧
    (prev = [] → greedyMatches prev dets = [] ∧
      track true prev dets n = track false prev dets n) ∧
    (dets = [] → (track true prev dets n).1 = []) := by
  have hjnd : ((greedyMatches prev dets).map Cand.j).Nodup := greedyGo_j_nodup _ _ _
  refine ⟨?_, greedyGo_pi_nodup _ _ _, hjnd, greedyGo_chain _ _ _, ?_, ?_, ?_, ?_⟩
  · intro m hm
    obtain ⟨p', hp', d', hd', hio, hmeq⟩ := mem_cands.mp (greedyGo_mem _ _ _ m hm)
    have hpg : prev[p'.1]? = some p'.2 := by
      have := ((mem_idxFrom prev 0 p'.1 p'.2).mp hp').2
      simpa using this
    have hdg : dets[d'.1]? = some d'.2 := by
      have := ((mem_idxFrom dets 0 d'.1 d'.2).mp hd').2
      simpa using this
    subst hmeq
    refine ⟨hio, p'.2, hpg, rfl, d'.2, hdg, rfl, ?_⟩
    have hlook : lookupMatch (greedyMatches prev dets) (0 + d'.1) = some p'.2.id := by
      rw [Nat.zero_add]
      exact lookupMatch_of_mem hjnd hm
    obtain ⟨f, hf, hfi⟩ :=
      assignFaces_matched (greedyMatches prev dets) dets 0 n d'.1 d'.2 p'.2.id hdg hlook
    exact ⟨f, hf, hfi⟩
  · intro c0 T hmeq
    have hcb := greedyGo_head hmeq
    obtain ⟨p₀, hp₀, d₀, hd₀, hio₀, hc0eq⟩ := mem_cands.mp (chooseBest_mem hcb)
    have hc0v : iouThreshold < c0.v := by rw [hc0eq]; exact hio₀
    constructor
    · intro pi p hp j d hd
      by_cases hio : iouThreshold < iou p.bbox d.bbox
      · have hmem : (⟨pi, p.id, j, iou p.bbox d.bbox⟩ : Cand) ∈
            cands (idxFrom 0 prev) (idxFrom 0 dets) :=
          mem_cands.mpr ⟨(pi, p),
            (mem_idxFrom prev 0 pi p).mpr ⟨Nat.zero_le _, by simpa using hp⟩,
            (j, d), (mem_idxFrom dets 0 j d).mpr ⟨Nat.zero_le _, by simpa using hd⟩,
            hio, rfl⟩
        exact (chooseBest_le hcb _ hmem).1
      · push_neg at hio
        exact le_trans hio (le_of_lt hc0v)
    · intro pi p hp j d hd heq
      have hio : iouThreshold < iou p.bbox d.bbox := by rw [heq]; exact hc0v
      have hmem : (⟨pi, p.id, j, iou p.bbox d.bbox⟩ : Cand) ∈
          cands (idxFrom 0 prev) (idxFrom 0 dets) :=
        mem_cands.mpr ⟨(pi, p),
          (mem_idxFrom prev 0 pi p).mpr ⟨Nat.zero_le _, by simpa using hp⟩,
          (j, d), (mem_idxFrom dets 0 j d).mpr ⟨Nat.zero_le _, by simpa using hd⟩,
          hio, rfl⟩
      exact (chooseBest_le hcb _ hmem).2 heq
  · intro pi p hp hnpi j d hd hnj
    exact greedyGo_complete prev.length (idxFrom 0 prev) (idxFrom 0 dets)
      (le_of_eq (idxFrom_length prev 0)) (pi, p)
      ((mem_idxFrom prev 0 pi p).mpr ⟨Nat.zero_le _, by simpa using hp⟩) (j, d)
      ((mem_idxFrom dets 0 j d).mpr ⟨Nat.zero_le _, by simpa using hd⟩) hnpi hnj
  · intro hpe
    subst hpe
    refine ⟨rfl, ?_⟩
    show track true [] dets n = track false [] dets n
    have h1 : track true [] dets n = assignFaces (greedyMatches [] dets) 0 n dets := rfl
    have h2 : greedyMatches ([] : List Face) dets = [] := rfl
    rw [h1, h2, assignFaces_nil]
    rfl
  · intro hde
    subst hde
    rfl

end SFL
